import Mathlib

set_option maxHeartbeats 1000000

namespace MetaSearch

/-- JSON values as manipulated by the frontend: the `config` field of a
source is an arbitrary JSON value. Numbers are modelled as integers
(the configs the app manipulates are plain JSON objects); object fields
and strings are lists of characters. -/
inductive Json where
  | null
  | bool (b : Bool)
  | num (n : Int)
  | str (chars : List Char)
  | arr (elems : List Json)
  | obj (fields : List (List Char × Json))

/-- Whitespace characters recognised by the JSON lexer and by trimming. -/
def isWs (c : Char) : Bool :=
  c = ' ' || c = '\n' || c = '\t' || c = '\r'

/-- Drop leading whitespace from a character list. -/
def skipWs : List Char → List Char
  | [] => []
  | c :: cs => if isWs c then skipWs cs else c :: cs

/-- A run of `n` space characters (pretty-printer indentation). -/
def spaces (n : Nat) : List Char := List.replicate n ' '

/-- Decimal digit test on characters. -/
def isDigitC (c : Char) : Bool :=
  decide (48 ≤ c.toNat) && decide (c.toNat ≤ 57)

/-- The decimal digit character for a digit value below ten. -/
def digitChar : Nat → Char
  | 0 => '0'
  | 1 => '1'
  | 2 => '2'
  | 3 => '3'
  | 4 => '4'
  | 5 => '5'
  | 6 => '6'
  | 7 => '7'
  | 8 => '8'
  | 9 => '9'
  | _ + 10 => '0'

/-- Decimal representation of a natural number, most significant digit first. -/
def toDigits (n : Nat) : List Char :=
  if n < 10 then [digitChar n]
  else toDigits (n / 10) ++ [digitChar (n % 10)]
termination_by n
decreasing_by exact Nat.div_lt_self (by omega) (by omega)

/-- Numeric value of a list of decimal digit characters. -/
def digitsVal (ds : List Char) : Nat :=
  ds.foldl (fun a c => 10 * a + (c.toNat - 48)) 0

/-- Split off the longest leading run of decimal digits. -/
def takeDigits : List Char → List Char × List Char
  | [] => ([], [])
  | c :: cs =>
    if isDigitC c then
      let p := takeDigits cs
      (c :: p.1, p.2)
    else ([], c :: cs)

/-- String escaping performed by the JSON serializer. -/
def escapeChar (c : Char) : List Char :=
  if c = '"' then ['\\', '"']
  else if c = '\\' then ['\\', '\\']
  else if c = '\n' then ['\\', 'n']
  else if c = '\t' then ['\\', 't']
  else if c = '\r' then ['\\', 'r']
  else [c]

/-- Escape every character of a string body. -/
def escapeStr : List Char → List Char
  | [] => []
  | c :: cs => escapeChar c ++ escapeStr cs

/-- Serialized form of a JSON string, including the surrounding quotes. -/
def printStr (cs : List Char) : List Char :=
  '"' :: (escapeStr cs ++ ['"'])

/-- Serialized form of a JSON integer. -/
def printInt (n : Int) : List Char :=
  if n < 0 then '-' :: toDigits n.natAbs else toDigits n.natAbs

mutual
/-- Model of the serialization performed by the admin form when loading a
source for edit: two-space indented pretty printing, `ind` is the current
nesting depth. -/
def printVal : Nat → Json → List Char
  | _, .null => ['n', 'u', 'l', 'l']
  | _, .bool true => ['t', 'r', 'u', 'e']
  | _, .bool false => ['f', 'a', 'l', 's', 'e']
  | _, .num n => printInt n
  | _, .str cs => printStr cs
  | _, .arr [] => ['[', ']']
  | ind, .arr (x :: xs) =>
      '[' :: '\n' :: (printItems (ind + 1) x xs ++ '\n' :: (spaces (2 * ind) ++ [']']))
  | _, .obj [] => ['\x7b', '\x7d']
  | ind, .obj (kv :: kvs) =>
      '\x7b' :: '\n' :: (printFields (ind + 1) kv kvs ++ '\n' :: (spaces (2 * ind) ++ ['\x7d']))
termination_by ind j => sizeOf j
decreasing_by all_goals (simp_wf; (try simp); (try omega))

/-- Pretty-printed array elements, comma separated, one per indented line. -/
def printItems : Nat → Json → List Json → List Char
  | ind, x, [] => spaces (2 * ind) ++ printVal ind x
  | ind, x, y :: ys =>
      spaces (2 * ind) ++ (printVal ind x ++ ',' :: '\n' :: printItems ind y ys)
termination_by ind x xs => 1 + sizeOf x + sizeOf xs
decreasing_by all_goals (simp_wf; (try simp); (try omega))

/-- Pretty-printed object members, comma separated, one per indented line. -/
def printFields : Nat → (List Char × Json) → List (List Char × Json) → List Char
  | ind, (k, v), [] => spaces (2 * ind) ++ (printStr k ++ ':' :: ' ' :: printVal ind v)
  | ind, (k, v), f :: fs =>
      spaces (2 * ind) ++
        (printStr k ++ ':' :: ' ' :: (printVal ind v ++ ',' :: '\n' :: printFields ind f fs))
termination_by ind kv fs => 1 + sizeOf kv + sizeOf fs
decreasing_by all_goals (simp_wf; (try simp); (try omega))
end

/-- Escape sequences accepted after a backslash by the JSON reader. -/
def unescapeChar (c : Char) : Option Char :=
  if c = '"' then some '"'
  else if c = '\\' then some '\\'
  else if c = '/' then some '/'
  else if c = 'n' then some '\n'
  else if c = 't' then some '\t'
  else if c = 'r' then some '\r'
  else none

/-- Read a JSON string body up to the closing quote; the flag records
that the previous character was an unprocessed backslash. -/
def parseStrAux : Bool → List Char → Option (List Char × List Char)
  | _, [] => none
  | true, e :: cs =>
    match unescapeChar e with
    | none => none
    | some u =>
      match parseStrAux false cs with
      | none => none
      | some p => some (u :: p.1, p.2)
  | false, c :: cs =>
    if c = '"' then some ([], cs)
    else if c = '\\' then parseStrAux true cs
    else
      match parseStrAux false cs with
      | none => none
      | some p => some (c :: p.1, p.2)

/-- Read a JSON string body up to the closing quote, returning the decoded
characters and the remaining input. -/
def parseStrBody : List Char → Option (List Char × List Char) := parseStrAux false

/-- One step of the JSON value reader: reads a value after optional
whitespace; the continuations `pItems` and `pFields` read the elements of
a nonempty array or object. -/
def parseValCore (pItems : List Char → Option (List Json × List Char))
    (pFields : List Char → Option (List (List Char × Json) × List Char))
    (input : List Char) : Option (Json × List Char) :=
  match skipWs input with
  | [] => none
  | c :: rest =>
    if c = 'n' then
      match rest with
      | 'u' :: 'l' :: 'l' :: r => some (Json.null, r)
      | _ => none
    else if c = 't' then
      match rest with
      | 'r' :: 'u' :: 'e' :: r => some (Json.bool true, r)
      | _ => none
    else if c = 'f' then
      match rest with
      | 'a' :: 'l' :: 's' :: 'e' :: r => some (Json.bool false, r)
      | _ => none
    else if c = '"' then
      match parseStrBody rest with
      | none => none
      | some p => some (Json.str p.1, p.2)
    else if c = '[' then
      match skipWs rest with
      | [] => none
      | d :: r2 =>
        if d = ']' then some (Json.arr [], r2)
        else
          match pItems (d :: r2) with
          | none => none
          | some p => some (Json.arr p.1, p.2)
    else if c = '\x7b' then
      match skipWs rest with
      | [] => none
      | d :: r2 =>
        if d = '\x7d' then some (Json.obj [], r2)
        else
          match pFields (d :: r2) with
          | none => none
          | some p => some (Json.obj p.1, p.2)
    else if c = '-' then
      match takeDigits rest with
      | ([], _) => none
      | (d :: ds, r) => some (Json.num (-(Int.ofNat (digitsVal (d :: ds)))), r)
    else if isDigitC c then
      some (Json.num (Int.ofNat (digitsVal (takeDigits (c :: rest)).1)), (takeDigits (c :: rest)).2)
    else none

/-- One step of the array-elements reader: one value, then a comma and
more elements or the closing bracket. -/
def parseItemsCore (pVal : List Char → Option (Json × List Char))
    (pItems : List Char → Option (List Json × List Char))
    (input : List Char) : Option (List Json × List Char) :=
  match pVal input with
  | none => none
  | some (x, r) =>
    match skipWs r with
    | [] => none
    | e :: r2 =>
      if e = ',' then
        match pItems r2 with
        | none => none
        | some p => some (x :: p.1, p.2)
      else if e = ']' then some ([x], r2)
      else none

/-- One step of the object-members reader: a quoted key, a colon, a value,
then a comma and more members or the closing brace. -/
def parseFieldsCore (pVal : List Char → Option (Json × List Char))
    (pFields : List Char → Option (List (List Char × Json) × List Char))
    (input : List Char) : Option (List (List Char × Json) × List Char) :=
  match skipWs input with
  | [] => none
  | c :: r =>
    if c = '"' then
      match parseStrBody r with
      | none => none
      | some (k, r1) =>
        match skipWs r1 with
        | [] => none
        | d :: r2 =>
          if d = ':' then
            match pVal r2 with
            | none => none
            | some (v, r3) =>
              match skipWs r3 with
              | [] => none
              | e :: r4 =>
                if e = ',' then
                  match pFields r4 with
                  | none => none
                  | some p => some ((k, v) :: p.1, p.2)
                else if e = '\x7d' then some ([(k, v)], r4)
                else none
          else none
    else none

mutual
/-- Model of the JSON reader used for the `config` form field: read one
value after optional whitespace, returning the value and the rest of the
input. The first argument is recursion fuel. -/
def parseVal : Nat → List Char → Option (Json × List Char)
  | 0, _ => none
  | fuel + 1, input => parseValCore (parseItems fuel) (parseFields fuel) input

/-- Read the elements of a nonempty array after the opening bracket. -/
def parseItems : Nat → List Char → Option (List Json × List Char)
  | 0, _ => none
  | fuel + 1, input => parseItemsCore (parseVal fuel) (parseItems fuel) input

/-- Read the members of a nonempty object after the opening brace. -/
def parseFields : Nat → List Char → Option (List (List Char × Json) × List Char)
  | 0, _ => none
  | fuel + 1, input => parseFieldsCore (parseVal fuel) (parseFields fuel) input
end

mutual
/-- Fuel needed by the reader on the serialized form of a value. -/
def sizeJ : Json → Nat
  | .null => 1
  | .bool _ => 1
  | .num _ => 1
  | .str _ => 1
  | .arr [] => 1
  | .arr (x :: xs) => 1 + sizeL x xs
  | .obj [] => 1
  | .obj (kv :: kvs) => 1 + sizeF kv kvs
termination_by j => sizeOf j
decreasing_by all_goals (simp_wf; (try simp); (try omega))

/-- Fuel needed by the reader on serialized array elements. -/
def sizeL : Json → List Json → Nat
  | x, [] => 1 + sizeJ x
  | x, y :: ys => 1 + max (sizeJ x) (sizeL y ys)
termination_by x xs => 1 + sizeOf x + sizeOf xs
decreasing_by all_goals (simp_wf; (try simp); (try omega))

/-- Fuel needed by the reader on serialized object members. -/
def sizeF : (List Char × Json) → List (List Char × Json) → Nat
  | (_, v), [] => 1 + sizeJ v
  | (_, v), f :: fs => 1 + max (sizeJ v) (sizeF f fs)
termination_by kv fs => 1 + sizeOf kv + sizeOf fs
decreasing_by all_goals (simp_wf; (try simp); (try omega))
end

/-- Model of `JSON.parse`: the whole input must be one JSON value
surrounded by optional whitespace, otherwise the parse fails. -/
def Json.parse (s : String) : Option Json :=
  match parseVal (s.data.length + 1) s.data with
  | some (j, r) => if skipWs r = [] then some j else none
  | none => none

/-- Model of `JSON.stringify(v, null, 2)` as used by the admin edit form. -/
def stringify2 (j : Json) : String := String.mk (printVal 0 j)

/-- Model of the JavaScript string `trim()` used on the search query. -/
def jsTrim (s : String) : String :=
  String.mk (((s.data.dropWhile isWs).reverse.dropWhile isWs).reverse)

/-- One source-configuration record (`SourceConfig` in the spec). -/
structure Source where
  id : String
  name : String
  type : String
  url_base : String
  search_method : String
  config : Json
  enabled : Bool

/-- Body of the `POST /search` request built by `handleSearch`. -/
structure SearchBody where
  query : String
  type : String
  source_ids : List String

/-- Body of the `POST /sources` create request: all form fields, no id. -/
structure SourceDraft where
  name : String
  type : String
  url_base : String
  search_method : String
  config : Json
  enabled : Bool

/-- Body of a `PUT /sources/id` update request: a partial record, only
the present fields are sent. -/
structure SourcePatch where
  name : Option String
  type : Option String
  url_base : Option String
  search_method : Option String
  config : Option Json
  enabled : Option Bool

/-- One item of a per-source search result group. -/
structure ResultItem where
  name : String
  image : String
  price : String
  size : String
  producer : String
  release_date : String
  link : String

/-- One per-source result group returned by `POST /search`. -/
structure SearchResultGroup where
  source_name : String
  error : Option String
  items : List ResultItem

/-- Observable side effects of the client: network requests, toast
notifications and console logging. -/
inductive Effect where
  | getSources
  | getSourcesByType (ty : String)
  | postSearch (body : SearchBody)
  | postSources (body : SourceDraft)
  | putSource (id : String) (body : SourcePatch)
  | deleteSource (id : String)
  | postSeed
  | toastError (msg : String)
  | toastSuccess (msg : String)
  | toastInfo (msg : String)
  | logError (msg : String)

/-- Component state of the Home (search) view. -/
structure HomeState where
  query : String
  contentType : String
  sources : List Source
  selectedSources : List String
  searching : Bool
  results : List SearchResultGroup
  hasSearched : Bool

/-- Initial Home state from the `useState` defaults. -/
def initialHome : HomeState where
  query := ""
  contentType := "game"
  sources := []
  selectedSources := []
  searching := false
  results := []
  hasSearched := false

/-- The `toggleSource` handler: JS
`prev.includes(id) ? prev.filter(x => x !== id) : [...prev, id]`. -/
def toggleSource (prev : List String) (sourceId : String) : List String :=
  if prev.contains sourceId then prev.filter (fun id => id != sourceId)
  else prev ++ [sourceId]

/-- The `handleSearch` handler up to the point where the request is
issued: validation of the query and the selection, then the `POST /search`
effect with the in-flight flag set. -/
def handleSearch (s : HomeState) : List Effect × HomeState :=
  if jsTrim s.query = "" then
    ([Effect.toastError "Digite algo para buscar"], s)
  else if s.selectedSources.length = 0 then
    ([Effect.toastError "Selecione ao menos uma fonte"], s)
  else
    ([Effect.postSearch ⟨jsTrim s.query, s.contentType, s.selectedSources⟩],
     { s with searching := true, hasSearched := true })

/-- User and network events the Home view reacts to. An event for an
asynchronous response (`sourcesLoaded`, `searchResolved`, ...) models the
continuation after the corresponding `await`. -/
inductive HomeEvent where
  | inputChange (v : String)
  | keyPress (k : String)
  | clickSearch
  | selectContentType (ty : String)
  | toggleSourceClick (sid : String)
  | sourcesLoaded (l : List Source)
  | sourcesLoadFailed
  | searchResolved (r : List SearchResultGroup)
  | searchFailed

/-- One step of the Home view: the effects issued and the next state.
The search button is rendered with `disabled=searching`, so a click while
a search is in flight does nothing; the Enter key handler calls
`handleSearch` directly. -/
def homeStep (s : HomeState) (e : HomeEvent) : List Effect × HomeState :=
  match e with
  | .inputChange v => ([], { s with query := v })
  | .keyPress k => if k = "Enter" then handleSearch s else ([], s)
  | .clickSearch => if s.searching then ([], s) else handleSearch s
  | .selectContentType ty => ([Effect.getSourcesByType ty], { s with contentType := ty })
  | .toggleSourceClick sid =>
      ([], { s with selectedSources := toggleSource s.selectedSources sid })
  | .sourcesLoaded l =>
      ([], { s with sources := l, selectedSources := l.map (fun x => x.id) })
  | .sourcesLoadFailed =>
      ([Effect.logError "Error loading sources:", Effect.toastError "Erro ao carregar fontes"], s)
  | .searchResolved r =>
      ((if r.all (fun g => g.items.length = 0) then [Effect.toastInfo "Nenhum resultado encontrado"]
        else []),
       { s with results := r, searching := false })
  | .searchFailed =>
      ([Effect.logError "Search error:", Effect.toastError "Erro ao realizar busca"],
       { s with searching := false })

/-- Home states reachable from the initial render by any event sequence. -/
inductive ReachableHome : HomeState → Prop where
  | init : ReachableHome initialHome
  | step (s : HomeState) (e : HomeEvent) : ReachableHome s → ReachableHome (homeStep s e).2

/-- The admin form fields; `config` is the raw text of the JSON textarea. -/
structure AdminFormData where
  name : String
  type : String
  url_base : String
  search_method : String
  config : String
  enabled : Bool

/-- The blank form produced by `resetForm` and the initial render. -/
def emptyForm : AdminFormData where
  name := ""
  type := "game"
  url_base := ""
  search_method := "scraping"
  config := "\x7b\x7d"
  enabled := true

/-- Component state of the Admin view. -/
structure AdminState where
  sources : List Source
  loading : Bool
  dialogOpen : Bool
  editingSource : Option Source
  formData : AdminFormData

/-- Initial Admin state from the `useState` defaults. -/
def initialAdmin : AdminState where
  sources := []
  loading := true
  dialogOpen := false
  editingSource := none
  formData := emptyForm

/-- The create request body `\x7b...formData, config: configObj\x7d`. -/
def submitDraft (f : AdminFormData) (cfg : Json) : SourceDraft where
  name := f.name
  type := f.type
  url_base := f.url_base
  search_method := f.search_method
  config := cfg
  enabled := f.enabled

/-- The update request body sent by `handleSubmit`: every form field is
present (a full-record update). -/
def fullPatch (f : AdminFormData) (cfg : Json) : SourcePatch where
  name := some f.name
  type := some f.type
  url_base := some f.url_base
  search_method := some f.search_method
  config := some cfg
  enabled := some f.enabled

/-- The update request body sent by `handleToggleEnabled`: only the
`enabled` field is present. -/
def togglePatch (src : Source) : SourcePatch where
  name := none
  type := none
  url_base := none
  search_method := none
  config := none
  enabled := some (!src.enabled)

/-- The `handleSubmit` handler. `ok` is the outcome of the awaited
create/update request (the `catch` branch models a rejected promise). -/
def handleSubmit (s : AdminState) (ok : Bool) : List Effect × AdminState :=
  match Json.parse s.formData.config with
  | none => ([Effect.toastError "Configuração JSON inválida"], s)
  | some cfg =>
    match s.editingSource with
    | some src =>
      if ok then
        ([Effect.putSource src.id (fullPatch s.formData cfg),
          Effect.toastSuccess "Fonte atualizada com sucesso", Effect.getSources],
         { s with dialogOpen := false, editingSource := none, formData := emptyForm })
      else
        ([Effect.putSource src.id (fullPatch s.formData cfg),
          Effect.logError "Error saving source:", Effect.toastError "Erro ao salvar fonte"], s)
    | none =>
      if ok then
        ([Effect.postSources (submitDraft s.formData cfg),
          Effect.toastSuccess "Fonte criada com sucesso", Effect.getSources],
         { s with dialogOpen := false, editingSource := none, formData := emptyForm })
      else
        ([Effect.postSources (submitDraft s.formData cfg),
          Effect.logError "Error saving source:", Effect.toastError "Erro ao salvar fonte"], s)

/-- The `handleEdit` handler: fill the form from the source, with the
`config` object rendered by `JSON.stringify(source.config, null, 2)`. -/
def handleEdit (s : AdminState) (src : Source) : AdminState :=
  { s with
    editingSource := some src
    formData :=
      { name := src.name, type := src.type, url_base := src.url_base,
        search_method := src.search_method, config := stringify2 src.config,
        enabled := src.enabled }
    dialogOpen := true }

/-- The `handleDelete` handler. `confirmed` is the answer of the
`window.confirm` dialog, `ok` the outcome of the awaited DELETE. -/
def handleDelete (s : AdminState) (id : String) (confirmed : Bool) (ok : Bool) :
    List Effect × AdminState :=
  if !confirmed then ([], s)
  else if ok then
    ([Effect.deleteSource id, Effect.toastSuccess "Fonte excluída com sucesso",
      Effect.getSources], s)
  else
    ([Effect.deleteSource id, Effect.logError "Error deleting source:",
      Effect.toastError "Erro ao excluir fonte"], s)

/-- The `handleToggleEnabled` handler: a PUT whose body has only the
negated `enabled` flag, then a reload of the full list on success. -/
def handleToggleEnabled (s : AdminState) (src : Source) (ok : Bool) :
    List Effect × AdminState :=
  if ok then
    ([Effect.putSource src.id (togglePatch src), Effect.getSources], s)
  else
    ([Effect.putSource src.id (togglePatch src),
      Effect.logError "Error toggling source:", Effect.toastError "Erro ao atualizar fonte"], s)

/-- The admin `loadSources` call and its resolution: `outcome` is the
response of `GET /sources`, or `none` if the request failed. -/
def adminLoadSources (s : AdminState) (outcome : Option (List Source)) :
    List Effect × AdminState :=
  match outcome with
  | some l => ([Effect.getSources], { s with sources := l, loading := false })
  | none =>
      ([Effect.getSources, Effect.logError "Error loading sources:",
        Effect.toastError "Erro ao carregar fontes"],
       { s with loading := false })

/-- The `seedDatabase` call and its resolution: a failure is only logged
and changes nothing. -/
def seedDatabase (s : AdminState) (ok : Bool) : List Effect × AdminState :=
  (Effect.postSeed :: (if ok then [] else [Effect.logError "Error seeding:"]), s)

/-- The requests issued synchronously by the admin mount effect
(`useEffect` with an empty dependency list runs once): `loadSources()`
then `seedDatabase()`. -/
def adminMountEffects : List Effect :=
  [Effect.getSources, Effect.postSeed]

/-- Recogniser for the seed request among effects. -/
def isSeedEffect : Effect → Bool
  | .postSeed => true
  | _ => false

/-- A concrete source used as a witness input. -/
def srcSteam : Source where
  id := "s1"
  name := "Steam"
  type := "game"
  url_base := "https://store"
  search_method := "scraping"
  config := Json.obj []
  enabled := true

/-- A Home state with a blank (whitespace-only) query and a selection. -/
def homeBlank : HomeState :=
  { initialHome with query := "   ", selectedSources := ["s1"] }

/-- A Home state with a padded non-blank query and a selection. -/
def homeReady : HomeState :=
  { initialHome with query := " zelda ", selectedSources := ["s1"] }

/-- The Home state reached after loading one source, typing a query and
submitting once: a search request is in flight. -/
def homeInFlight : HomeState where
  query := "zelda"
  contentType := "game"
  sources := [srcSteam]
  selectedSources := ["s1"]
  searching := true
  results := []
  hasSearched := true

/-- An Admin state whose config textarea holds text that is not JSON. -/
def adminBadConfig : AdminState :=
  { initialAdmin with formData := { emptyForm with config := "nope" } }

/-- The head of a character list is not a decimal digit (trivially true
for the empty list); the input that follows a serialized number satisfies
this, so the number reader stops at the right place. -/
def headNotDigit : List Char → Prop
  | [] => True
  | c :: _ => isDigitC c = false

theorem skipWs_cons_of_ws (c : Char) (l : List Char) (h : isWs c = true) :
    skipWs (c :: l) = skipWs l := by
  simp [skipWs, h]

theorem skipWs_cons_of_not_ws (c : Char) (l : List Char) (h : isWs c = false) :
    skipWs (c :: l) = c :: l := by
  simp [skipWs, h]

theorem skipWs_spaces (n : Nat) (l : List Char) : skipWs (spaces n ++ l) = skipWs l := by
  induction n with
  | zero => simp [spaces]
  | succ k ih =>
    rw [spaces, List.replicate_succ, List.cons_append, skipWs_cons_of_ws _ _ (by decide)]
    exact ih

theorem digitChar_isDigit (d : Nat) (h : d < 10) : isDigitC (digitChar d) = true := by
  interval_cases d <;> decide

theorem digitChar_toNat (d : Nat) (h : d < 10) : (digitChar d).toNat = 48 + d := by
  interval_cases d <;> decide

theorem toDigits_ne_nil (n : Nat) : toDigits n ≠ [] := by
  rw [toDigits]
  split <;> simp

theorem toDigits_all_digits (n : Nat) : ∀ c ∈ toDigits n, isDigitC c = true := by
  induction n using Nat.strong_induction_on with
  | _ n ih =>
    rw [toDigits]
    split
    · next h =>
      intro c hc
      simp only [List.mem_singleton] at hc
      subst hc
      exact digitChar_isDigit _ h
    · next h =>
      intro c hc
      rcases List.mem_append.mp hc with hc | hc
      · exact ih (n / 10) (Nat.div_lt_self (by omega) (by omega)) c hc
      · simp only [List.mem_singleton] at hc
        subst hc
        exact digitChar_isDigit _ (Nat.mod_lt _ (by omega))

theorem digitsVal_append (ds : List Char) (c : Char) :
    digitsVal (ds ++ [c]) = 10 * digitsVal ds + (c.toNat - 48) := by
  simp [digitsVal, List.foldl_append]

theorem digitsVal_toDigits (n : Nat) : digitsVal (toDigits n) = n := by
  induction n using Nat.strong_induction_on with
  | _ n ih =>
    rw [toDigits]
    split
    · next h =>
      simp [digitsVal, digitChar_toNat n h]
    · next h =>
      rw [digitsVal_append, ih (n / 10) (Nat.div_lt_self (by omega) (by omega)),
        digitChar_toNat (n % 10) (by omega)]
      omega

theorem takeDigits_of_digits (ds rest : List Char)
    (hd : ∀ c ∈ ds, isDigitC c = true) (hr : headNotDigit rest) :
    takeDigits (ds ++ rest) = (ds, rest) := by
  induction ds with
  | nil =>
    cases rest with
    | nil => rfl
    | cons c cs =>
      have hc : isDigitC c = false := hr
      simp [takeDigits, hc]
  | cons d ds ih =>
    have hdd : isDigitC d = true := hd d (List.mem_cons_self d ds)
    have ih2 := ih (fun c hc => hd c (List.mem_cons_of_mem d hc))
    simp [takeDigits, hdd, ih2]

theorem digit_not_special (c : Char) (h : isDigitC c = true) :
    isWs c = false ∧ c ≠ ']' ∧ c ≠ '\x7d' ∧ c ≠ 'n' ∧ c ≠ 't' ∧ c ≠ 'f' ∧ c ≠ '"' ∧
      c ≠ '[' ∧ c ≠ '\x7b' ∧ c ≠ '-' := by
  have hv : 48 ≤ c.toNat ∧ c.toNat ≤ 57 := by simpa [isDigitC] using h
  refine ⟨?_, ?_, ?_, ?_, ?_, ?_, ?_, ?_, ?_, ?_⟩
  · cases hw : isWs c with
    | false => rfl
    | true =>
      exfalso
      have hw2 : ((c = ' ' ∨ c = '\n') ∨ c = '\t') ∨ c = '\r' := by
        simpa [isWs] using hw
      rcases hw2 with ((h1 | h1) | h1) | h1 <;> subst h1 <;> exact absurd hv (by decide)
  all_goals (rintro rfl; exact absurd hv (by decide))

theorem parseStrAux_escape (cs rest : List Char) :
    parseStrAux false (escapeStr cs ++ '"' :: rest) = some (cs, rest) := by
  induction cs with
  | nil => simp [escapeStr, parseStrAux]
  | cons c cs ih =>
    by_cases h1 : c = '"'
    · subst h1
      simp [escapeStr, escapeChar, parseStrAux, unescapeChar, ih]
    · by_cases h2 : c = '\\'
      · subst h2
        simp [escapeStr, escapeChar, parseStrAux, unescapeChar, ih]
      · by_cases h3 : c = '\n'
        · subst h3
          simp [escapeStr, escapeChar, parseStrAux, unescapeChar, ih]
        · by_cases h4 : c = '\t'
          · subst h4
            simp [escapeStr, escapeChar, parseStrAux, unescapeChar, ih]
          · by_cases h5 : c = '\r'
            · subst h5
              simp [escapeStr, escapeChar, parseStrAux, unescapeChar, ih]
            · simp [escapeStr, escapeChar, parseStrAux, h1, h2, h3, h4, h5, ih]

theorem parseStrBody_escape (cs rest : List Char) :
    parseStrBody (escapeStr cs ++ '"' :: rest) = some (cs, rest) :=
  parseStrAux_escape cs rest

theorem parseVal_ws (fuel : Nat) (c : Char) (l : List Char) (h : isWs c = true) :
    parseVal fuel (c :: l) = parseVal fuel l := by
  cases fuel with
  | zero => rfl
  | succ f =>
    show parseValCore (parseItems f) (parseFields f) (c :: l) =
      parseValCore (parseItems f) (parseFields f) l
    unfold parseValCore
    rw [skipWs_cons_of_ws c l h]

theorem parseVal_spaces (fuel n : Nat) (l : List Char) :
    parseVal fuel (spaces n ++ l) = parseVal fuel l := by
  induction n with
  | zero => simp [spaces]
  | succ k ih =>
    rw [spaces, List.replicate_succ, List.cons_append, parseVal_ws _ _ _ (by decide)]
    exact ih

theorem parseItems_ws (fuel : Nat) (c : Char) (l : List Char) (h : isWs c = true) :
    parseItems fuel (c :: l) = parseItems fuel l := by
  cases fuel with
  | zero => rfl
  | succ f =>
    show parseItemsCore (parseVal f) (parseItems f) (c :: l) =
      parseItemsCore (parseVal f) (parseItems f) l
    unfold parseItemsCore
    rw [parseVal_ws f c l h]

theorem parseItems_spaces (fuel n : Nat) (l : List Char) :
    parseItems fuel (spaces n ++ l) = parseItems fuel l := by
  induction n with
  | zero => simp [spaces]
  | succ k ih =>
    rw [spaces, List.replicate_succ, List.cons_append, parseItems_ws _ _ _ (by decide)]
    exact ih

theorem parseFields_ws (fuel : Nat) (c : Char) (l : List Char) (h : isWs c = true) :
    parseFields fuel (c :: l) = parseFields fuel l := by
  cases fuel with
  | zero => rfl
  | succ f =>
    show parseFieldsCore (parseVal f) (parseFields f) (c :: l) =
      parseFieldsCore (parseVal f) (parseFields f) l
    unfold parseFieldsCore
    rw [skipWs_cons_of_ws c l h]

theorem parseFields_spaces (fuel n : Nat) (l : List Char) :
    parseFields fuel (spaces n ++ l) = parseFields fuel l := by
  induction n with
  | zero => simp [spaces]
  | succ k ih =>
    rw [spaces, List.replicate_succ, List.cons_append, parseFields_ws _ _ _ (by decide)]
    exact ih

theorem parseVal_succ (f : Nat) (l : List Char) :
    parseVal (f + 1) l = parseValCore (parseItems f) (parseFields f) l := rfl

theorem parseItems_succ (f : Nat) (l : List Char) :
    parseItems (f + 1) l = parseItemsCore (parseVal f) (parseItems f) l := rfl

theorem parseFields_succ (f : Nat) (l : List Char) :
    parseFields (f + 1) l = parseFieldsCore (parseVal f) (parseFields f) l := rfl

theorem parseItems_skipWs (fuel : Nat) (l : List Char) :
    parseItems fuel (skipWs l) = parseItems fuel l := by
  induction l with
  | nil => rfl
  | cons c cs ih =>
    cases hw : isWs c with
    | true =>
      rw [skipWs_cons_of_ws c cs hw, parseItems_ws fuel c cs hw]
      exact ih
    | false => rw [skipWs_cons_of_not_ws c cs hw]

theorem parseFields_skipWs (fuel : Nat) (l : List Char) :
    parseFields fuel (skipWs l) = parseFields fuel l := by
  induction l with
  | nil => rfl
  | cons c cs ih =>
    cases hw : isWs c with
    | true =>
      rw [skipWs_cons_of_ws c cs hw, parseFields_ws fuel c cs hw]
      exact ih
    | false => rw [skipWs_cons_of_not_ws c cs hw]

theorem printVal_head (ind : Nat) (j : Json) :
    ∃ c cs, printVal ind j = c :: cs ∧ isWs c = false ∧ c ≠ ']' ∧ c ≠ '\x7d' := by
  cases j with
  | null => exact ⟨'n', ['u', 'l', 'l'], by simp [printVal], by decide, by decide, by decide⟩
  | bool b =>
    cases b with
    | false =>
      exact ⟨'f', ['a', 'l', 's', 'e'], by simp [printVal], by decide, by decide, by decide⟩
    | true => exact ⟨'t', ['r', 'u', 'e'], by simp [printVal], by decide, by decide, by decide⟩
  | num n =>
    by_cases hn : n < 0
    · exact ⟨'-', toDigits n.natAbs, by simp [printVal, printInt, hn], by decide, by decide,
        by decide⟩
    · obtain ⟨c, cs, hc⟩ : ∃ c cs, toDigits n.natAbs = c :: cs := by
        cases hcd : toDigits n.natAbs with
        | nil => exact absurd hcd (toDigits_ne_nil _)
        | cons c cs => exact ⟨c, cs, rfl⟩
      have hdig : isDigitC c = true :=
        toDigits_all_digits _ c (by rw [hc]; exact List.mem_cons_self c cs)
      obtain ⟨hws, hrb, hcb, _⟩ := digit_not_special c hdig
      exact ⟨c, cs, by simp [printVal, printInt, hn, hc], hws, hrb, hcb⟩
  | str cs =>
    exact ⟨'"', escapeStr cs ++ ['"'], by simp [printVal, printStr], by decide, by decide,
      by decide⟩
  | arr xs =>
    cases xs with
    | nil => exact ⟨'[', [']'], by simp [printVal], by decide, by decide, by decide⟩
    | cons x xs =>
      exact ⟨'[', '\n' :: (printItems (ind + 1) x xs ++ '\n' :: (spaces (2 * ind) ++ [']'])),
        by simp [printVal], by decide, by decide, by decide⟩
  | obj fs =>
    cases fs with
    | nil => exact ⟨'\x7b', ['\x7d'], by simp [printVal], by decide, by decide, by decide⟩
    | cons f fs =>
      exact ⟨'\x7b',
        '\n' :: (printFields (ind + 1) f fs ++ '\n' :: (spaces (2 * ind) ++ ['\x7d'])),
        by simp [printVal], by decide, by decide, by decide⟩

theorem skipWs_printItems_append (ind : Nat) (x : Json) (xs : List Json) (B : List Char) :
    ∃ c t, skipWs (printItems ind x xs ++ B) = c :: t ∧ isWs c = false ∧ c ≠ ']' ∧
      c ≠ '\x7d' := by
  obtain ⟨c, t, hc, hw, h1, h2⟩ := printVal_head ind x
  cases xs with
  | nil =>
    refine ⟨c, t ++ B, ?_, hw, h1, h2⟩
    simp only [printItems]
    rw [List.append_assoc, skipWs_spaces, hc, List.cons_append,
      skipWs_cons_of_not_ws _ _ hw]
  | cons y ys =>
    refine ⟨c, t ++ (',' :: '\n' :: printItems ind y ys ++ B), ?_, hw, h1, h2⟩
    simp only [printItems]
    rw [List.append_assoc, skipWs_spaces, List.append_assoc, hc, List.cons_append,
      skipWs_cons_of_not_ws _ _ hw, List.cons_append]

theorem skipWs_printFields_append (ind : Nat) (kv : List Char × Json)
    (fs : List (List Char × Json)) (B : List Char) :
    ∃ t, skipWs (printFields ind kv fs ++ B) = '"' :: t := by
  obtain ⟨k, v⟩ := kv
  cases fs with
  | nil =>
    apply Exists.intro
    simp only [printFields, printStr, List.append_assoc, List.cons_append,
      List.singleton_append]
    rw [skipWs_spaces, skipWs_cons_of_not_ws '"' _ (by decide)]
  | cons g gs =>
    apply Exists.intro
    simp only [printFields, printStr, List.append_assoc, List.cons_append,
      List.singleton_append]
    rw [skipWs_spaces, skipWs_cons_of_not_ws '"' _ (by decide)]

theorem headNotDigit_cons (c : Char) (l : List Char) (h : isDigitC c = false) :
    headNotDigit (c :: l) := h

theorem parse_print_rt (N : Nat) :
    (∀ j, sizeJ j ≤ N → ∀ ind fuel rest, sizeJ j ≤ fuel → headNotDigit rest →
      parseVal fuel (printVal ind j ++ rest) = some (j, rest)) ∧
    (∀ x xs, sizeL x xs ≤ N → ∀ ind k fuel rest, sizeL x xs ≤ fuel →
      parseItems fuel (printItems ind x xs ++ '\n' :: (spaces k ++ ']' :: rest)) =
        some (x :: xs, rest)) ∧
    (∀ kv fs, sizeF kv fs ≤ N → ∀ ind k fuel rest, sizeF kv fs ≤ fuel →
      parseFields fuel (printFields ind kv fs ++ '\n' :: (spaces k ++ '\x7d' :: rest)) =
        some (kv :: fs, rest)) := by
  induction N using Nat.strong_induction_on with
  | _ N ih =>
    refine ⟨?_, ?_, ?_⟩
    · intro j hjN ind fuel rest hfuel hrest
      cases j with
      | null =>
        obtain ⟨f, rfl⟩ : ∃ f, fuel = f + 1 :=
          ⟨fuel - 1, by simp [sizeJ] at hfuel; omega⟩
        simp only [printVal, List.cons_append, List.nil_append]
        rfl
      | bool b =>
        obtain ⟨f, rfl⟩ : ∃ f, fuel = f + 1 :=
          ⟨fuel - 1, by simp [sizeJ] at hfuel; omega⟩
        cases b with
        | false =>
          simp only [printVal, List.cons_append, List.nil_append]
          rfl
        | true =>
          simp only [printVal, List.cons_append, List.nil_append]
          rfl
      | num n =>
        obtain ⟨f, rfl⟩ : ∃ f, fuel = f + 1 :=
          ⟨fuel - 1, by simp [sizeJ] at hfuel; omega⟩
        obtain ⟨c, cs, hc⟩ : ∃ c cs, toDigits n.natAbs = c :: cs := by
          cases hcd : toDigits n.natAbs with
          | nil => exact absurd hcd (toDigits_ne_nil _)
          | cons c cs => exact ⟨c, cs, rfl⟩
        have hdig : isDigitC c = true :=
          toDigits_all_digits _ c (by rw [hc]; exact List.mem_cons_self c cs)
        obtain ⟨hws, _, _, hn1, hn2, hn3, hn4, hn5, hn6, hn7⟩ := digit_not_special c hdig
        have htake : takeDigits (toDigits n.natAbs ++ rest) = (toDigits n.natAbs, rest) :=
          takeDigits_of_digits _ _ (toDigits_all_digits _) hrest
        have hdv : digitsVal (toDigits n.natAbs) = n.natAbs := digitsVal_toDigits _
        have htake2 : takeDigits (c :: (cs ++ rest)) = (c :: cs, rest) := by
          rw [← List.cons_append, ← hc]
          exact htake
        have hdv2 : digitsVal (c :: cs) = n.natAbs := by
          rw [← hc]
          exact hdv
        simp only [printVal]
        unfold printInt
        by_cases hn : n < 0
        · rw [if_pos hn, parseVal_succ]
          unfold parseValCore
          rw [hc, List.cons_append, List.cons_append,
            skipWs_cons_of_not_ws _ _ (by decide)]
          simp [htake2, hdv2, Int.ofNat_eq_natCast]
          rw [abs_of_neg hn, neg_neg]
        · rw [if_neg hn, parseVal_succ]
          unfold parseValCore
          rw [hc, List.cons_append, skipWs_cons_of_not_ws _ _ hws]
          simp [hn1, hn2, hn3, hn4, hn5, hn6, hn7, hdig, htake2, hdv2, Int.ofNat_eq_natCast]
          omega
      | str cs0 =>
        obtain ⟨f, rfl⟩ : ∃ f, fuel = f + 1 :=
          ⟨fuel - 1, by simp [sizeJ] at hfuel; omega⟩
        simp only [printVal, printStr, List.cons_append, List.append_assoc,
          List.singleton_append]
        rw [parseVal_succ]
        unfold parseValCore
        rw [skipWs_cons_of_not_ws _ _ (by decide)]
        simp [parseStrBody_escape]
      | arr xs =>
        cases xs with
        | nil =>
          obtain ⟨f, rfl⟩ : ∃ f, fuel = f + 1 :=
            ⟨fuel - 1, by simp [sizeJ] at hfuel; omega⟩
          simp only [printVal, List.cons_append, List.nil_append]
          rfl
        | cons x xs =>
          have hszL : 1 + sizeL x xs ≤ fuel := by simpa [sizeJ] using hfuel
          have hszN : 1 + sizeL x xs ≤ N := by simpa [sizeJ] using hjN
          obtain ⟨f, rfl⟩ : ∃ f, fuel = f + 1 := ⟨fuel - 1, by omega⟩
          have hPitems := (ih (N - 1) (by omega)).2.1 x xs (by omega) (ind + 1) (2 * ind) f
            rest (by omega)
          obtain ⟨c0, t0, hskip, hw0, hne0, _⟩ :=
            skipWs_printItems_append (ind + 1) x xs ('\n' :: (spaces (2 * ind) ++ ']' :: rest))
          have hcall : parseItems f (c0 :: t0) = some (x :: xs, rest) := by
            rw [← hskip, parseItems_skipWs]
            exact hPitems
          have hskip2 : skipWs ('\n' ::
              (printItems (ind + 1) x xs ++ '\n' :: (spaces (2 * ind) ++ ']' :: rest))) =
              c0 :: t0 := by
            rw [skipWs_cons_of_ws '\n' _ (by decide)]
            exact hskip
          simp only [printVal, List.cons_append, List.append_assoc, List.singleton_append]
          rw [parseVal_succ]
          unfold parseValCore
          rw [skipWs_cons_of_not_ws _ _ (by decide)]
          simp [hskip2, hne0, hcall]
      | obj fs =>
        cases fs with
        | nil =>
          obtain ⟨f, rfl⟩ : ∃ f, fuel = f + 1 :=
            ⟨fuel - 1, by simp [sizeJ] at hfuel; omega⟩
          simp only [printVal, List.cons_append, List.nil_append]
          rfl
        | cons kv fs =>
          have hszL : 1 + sizeF kv fs ≤ fuel := by simpa [sizeJ] using hfuel
          have hszN : 1 + sizeF kv fs ≤ N := by simpa [sizeJ] using hjN
          obtain ⟨f, rfl⟩ : ∃ f, fuel = f + 1 := ⟨fuel - 1, by omega⟩
          have hPfields := (ih (N - 1) (by omega)).2.2 kv fs (by omega) (ind + 1) (2 * ind) f
            rest (by omega)
          obtain ⟨t0, hskip⟩ :=
            skipWs_printFields_append (ind + 1) kv fs ('\n' :: (spaces (2 * ind) ++ '\x7d' :: rest))
          have hcall : parseFields f ('"' :: t0) = some (kv :: fs, rest) := by
            rw [← hskip, parseFields_skipWs]
            exact hPfields
          have hskip2 : skipWs ('\n' ::
              (printFields (ind + 1) kv fs ++ '\n' :: (spaces (2 * ind) ++ '\x7d' :: rest))) =
              '"' :: t0 := by
            rw [skipWs_cons_of_ws '\n' _ (by decide)]
            exact hskip
          simp only [printVal, List.cons_append, List.append_assoc, List.singleton_append]
          rw [parseVal_succ]
          unfold parseValCore
          rw [skipWs_cons_of_not_ws _ _ (by decide)]
          simp [hskip2, hcall]
    · intro x xs hxsN ind k fuel rest hfuel
      cases xs with
      | nil =>
        have h1 : 1 + sizeJ x ≤ fuel := by simpa [sizeL] using hfuel
        have h1N : 1 + sizeJ x ≤ N := by simpa [sizeL] using hxsN
        obtain ⟨f, rfl⟩ : ∃ f, fuel = f + 1 := ⟨fuel - 1, by omega⟩
        have hPval := (ih (N - 1) (by omega)).1 x (by omega) ind f
          ('\n' :: (spaces k ++ ']' :: rest)) (by omega)
          (headNotDigit_cons _ _ (by decide))
        have hskipSUF : skipWs ('\n' :: (spaces k ++ ']' :: rest)) = ']' :: rest := by
          rw [skipWs_cons_of_ws '\n' _ (by decide), skipWs_spaces,
            skipWs_cons_of_not_ws ']' _ (by decide)]
        rw [parseItems_succ]
        simp only [printItems, List.append_assoc]
        unfold parseItemsCore
        rw [parseVal_spaces]
        simp [hPval, hskipSUF]
      | cons y ys =>
        have hmax : 1 + max (sizeJ x) (sizeL y ys) ≤ fuel := by simpa [sizeL] using hfuel
        have hmaxN : 1 + max (sizeJ x) (sizeL y ys) ≤ N := by simpa [sizeL] using hxsN
        have hlx := Nat.le_max_left (sizeJ x) (sizeL y ys)
        have hly := Nat.le_max_right (sizeJ x) (sizeL y ys)
        obtain ⟨f, rfl⟩ : ∃ f, fuel = f + 1 := ⟨fuel - 1, by omega⟩
        have hPval := (ih (N - 1) (by omega)).1 x (by omega) ind f
          (',' :: ('\n' :: (printItems ind y ys ++ '\n' :: (spaces k ++ ']' :: rest))))
          (by omega) (headNotDigit_cons _ _ (by decide))
        have hPrest := (ih (N - 1) (by omega)).2.1 y ys (by omega) ind k f rest (by omega)
        have hstep : parseItems f
            ('\n' :: (printItems ind y ys ++ '\n' :: (spaces k ++ ']' :: rest))) =
            some (y :: ys, rest) := by
          rw [parseItems_ws _ _ _ (by decide)]
          exact hPrest
        have hskipComma : skipWs
            (',' :: ('\n' :: (printItems ind y ys ++ '\n' :: (spaces k ++ ']' :: rest)))) =
            ',' :: ('\n' :: (printItems ind y ys ++ '\n' :: (spaces k ++ ']' :: rest))) :=
          skipWs_cons_of_not_ws _ _ (by decide)
        rw [parseItems_succ]
        simp only [printItems, List.append_assoc, List.cons_append]
        unfold parseItemsCore
        rw [parseVal_spaces]
        simp [hPval, hskipComma, hstep]
    · intro kv fs hfsN ind k fuel rest hfuel
      obtain ⟨kk, v⟩ := kv
      cases fs with
      | nil =>
        have h1 : 1 + sizeJ v ≤ fuel := by simpa [sizeF] using hfuel
        have h1N : 1 + sizeJ v ≤ N := by simpa [sizeF] using hfsN
        obtain ⟨f, rfl⟩ : ∃ f, fuel = f + 1 := ⟨fuel - 1, by omega⟩
        have hPval := (ih (N - 1) (by omega)).1 v (by omega) ind f
          ('\n' :: (spaces k ++ '\x7d' :: rest)) (by omega)
          (headNotDigit_cons _ _ (by decide))
        have hsp : parseVal f
            (' ' :: (printVal ind v ++ '\n' :: (spaces k ++ '\x7d' :: rest))) =
            parseVal f (printVal ind v ++ '\n' :: (spaces k ++ '\x7d' :: rest)) :=
          parseVal_ws _ _ _ (by decide)
        have hskipColon : skipWs
            (':' :: (' ' :: (printVal ind v ++ '\n' :: (spaces k ++ '\x7d' :: rest)))) =
            ':' :: (' ' :: (printVal ind v ++ '\n' :: (spaces k ++ '\x7d' :: rest))) :=
          skipWs_cons_of_not_ws _ _ (by decide)
        have hskipSUF : skipWs ('\n' :: (spaces k ++ '\x7d' :: rest)) = '\x7d' :: rest := by
          rw [skipWs_cons_of_ws '\n' _ (by decide), skipWs_spaces,
            skipWs_cons_of_not_ws '\x7d' _ (by decide)]
        rw [parseFields_succ]
        simp only [printFields, printStr, List.append_assoc, List.cons_append,
          List.singleton_append]
        unfold parseFieldsCore
        rw [skipWs_spaces, skipWs_cons_of_not_ws '"' _ (by decide)]
        simp [parseStrBody_escape, hskipColon, hsp, hPval, hskipSUF]
      | cons g gs =>
        have hmax : 1 + max (sizeJ v) (sizeF g gs) ≤ fuel := by simpa [sizeF] using hfuel
        have hmaxN : 1 + max (sizeJ v) (sizeF g gs) ≤ N := by simpa [sizeF] using hfsN
        have hlx := Nat.le_max_left (sizeJ v) (sizeF g gs)
        have hly := Nat.le_max_right (sizeJ v) (sizeF g gs)
        obtain ⟨f, rfl⟩ : ∃ f, fuel = f + 1 := ⟨fuel - 1, by omega⟩
        have hPval := (ih (N - 1) (by omega)).1 v (by omega) ind f
          (',' :: ('\n' :: (printFields ind g gs ++ '\n' :: (spaces k ++ '\x7d' :: rest))))
          (by omega) (headNotDigit_cons _ _ (by decide))
        have hPrest := (ih (N - 1) (by omega)).2.2 g gs (by omega) ind k f rest (by omega)
        have hstep : parseFields f
            ('\n' :: (printFields ind g gs ++ '\n' :: (spaces k ++ '\x7d' :: rest))) =
            some (g :: gs, rest) := by
          rw [parseFields_ws _ _ _ (by decide)]
          exact hPrest
        have hsp : parseVal f
            (' ' :: (printVal ind v ++
              ',' :: ('\n' :: (printFields ind g gs ++ '\n' :: (spaces k ++ '\x7d' :: rest))))) =
            parseVal f (printVal ind v ++
              ',' :: ('\n' :: (printFields ind g gs ++ '\n' :: (spaces k ++ '\x7d' :: rest)))) :=
          parseVal_ws _ _ _ (by decide)
        have hskipColon : skipWs
            (':' :: (' ' :: (printVal ind v ++
              ',' :: ('\n' :: (printFields ind g gs ++ '\n' :: (spaces k ++ '\x7d' :: rest)))))) =
            ':' :: (' ' :: (printVal ind v ++
              ',' :: ('\n' :: (printFields ind g gs ++ '\n' :: (spaces k ++ '\x7d' :: rest))))) :=
          skipWs_cons_of_not_ws _ _ (by decide)
        have hskipComma : skipWs
            (',' :: ('\n' :: (printFields ind g gs ++ '\n' :: (spaces k ++ '\x7d' :: rest)))) =
            ',' :: ('\n' :: (printFields ind g gs ++ '\n' :: (spaces k ++ '\x7d' :: rest))) :=
          skipWs_cons_of_not_ws _ _ (by decide)
        rw [parseFields_succ]
        simp only [printFields, printStr, List.append_assoc, List.cons_append,
          List.singleton_append]
        unfold parseFieldsCore
        rw [skipWs_spaces, skipWs_cons_of_not_ws '"' _ (by decide)]
        simp [parseStrBody_escape, hskipColon, hsp, hPval, hskipComma, hstep]
theorem sizeJ_le_print_len (N : Nat) :
    (∀ j, sizeJ j ≤ N → ∀ ind, sizeJ j ≤ (printVal ind j).length) ∧
    (∀ x xs, sizeL x xs ≤ N → ∀ ind, 1 ≤ ind → sizeL x xs ≤ (printItems ind x xs).length) ∧
    (∀ kv fs, sizeF kv fs ≤ N → ∀ ind, 1 ≤ ind →
      sizeF kv fs ≤ (printFields ind kv fs).length) := by
  induction N using Nat.strong_induction_on with
  | _ N ih =>
    refine ⟨?_, ?_, ?_⟩
    · intro j hjN ind
      cases j with
      | null => simp [printVal, sizeJ]
      | bool b => cases b <;> simp [printVal, sizeJ]
      | num n =>
        have hlen : 1 ≤ (toDigits n.natAbs).length :=
          List.length_pos.mpr (toDigits_ne_nil n.natAbs)
        by_cases hn : n < 0 <;> simp [printVal, printInt, sizeJ, hn] <;> omega
      | str cs => simp [printVal, printStr, sizeJ]
      | arr xs =>
        cases xs with
        | nil => simp [printVal, sizeJ]
        | cons x xs =>
          have h1 : 1 + sizeL x xs ≤ N := by simpa [sizeJ] using hjN
          have hIt := (ih (N - 1) (by omega)).2.1 x xs (by omega) (ind + 1) (by omega)
          simp [printVal, sizeJ, spaces]
          omega
      | obj fs =>
        cases fs with
        | nil => simp [printVal, sizeJ]
        | cons kv kvs =>
          have h1 : 1 + sizeF kv kvs ≤ N := by simpa [sizeJ] using hjN
          have hIt := (ih (N - 1) (by omega)).2.2 kv kvs (by omega) (ind + 1) (by omega)
          simp [printVal, sizeJ, spaces]
          omega
    · intro x xs hxsN ind hind
      cases xs with
      | nil =>
        have h1 : 1 + sizeJ x ≤ N := by simpa [sizeL] using hxsN
        have hV := (ih (N - 1) (by omega)).1 x (by omega) ind
        simp [printItems, sizeL, spaces]
        omega
      | cons y ys =>
        have h1 : 1 + max (sizeJ x) (sizeL y ys) ≤ N := by simpa [sizeL] using hxsN
        have hlx := Nat.le_max_left (sizeJ x) (sizeL y ys)
        have hly := Nat.le_max_right (sizeJ x) (sizeL y ys)
        have hV := (ih (N - 1) (by omega)).1 x (by omega) ind
        have hIt := (ih (N - 1) (by omega)).2.1 y ys (by omega) ind hind
        simp [printItems, sizeL, spaces]
        rcases Nat.le_total (sizeJ x) (sizeL y ys) with hmx | hmx
        · rw [Nat.max_eq_right hmx]
          omega
        · rw [Nat.max_eq_left hmx]
          omega
    · intro kv fs hfsN ind hind
      obtain ⟨kk, v⟩ := kv
      cases fs with
      | nil =>
        have h1 : 1 + sizeJ v ≤ N := by simpa [sizeF] using hfsN
        have hV := (ih (N - 1) (by omega)).1 v (by omega) ind
        simp [printFields, printStr, sizeF, spaces]
        omega
      | cons g gs =>
        have h1 : 1 + max (sizeJ v) (sizeF g gs) ≤ N := by simpa [sizeF] using hfsN
        have hlx := Nat.le_max_left (sizeJ v) (sizeF g gs)
        have hly := Nat.le_max_right (sizeJ v) (sizeF g gs)
        have hV := (ih (N - 1) (by omega)).1 v (by omega) ind
        have hIt := (ih (N - 1) (by omega)).2.2 g gs (by omega) ind hind
        simp [printFields, printStr, sizeF, spaces]
        rcases Nat.le_total (sizeJ v) (sizeF g gs) with hmx | hmx
        · rw [Nat.max_eq_right hmx]
          omega
        · rw [Nat.max_eq_left hmx]
          omega

/-- The round trip at the heart of the admin edit form: reading back the
two-space pretty-printed serialization of any JSON value yields the same
value. -/
theorem parse_stringify2 (j : Json) : Json.parse (stringify2 j) = some j := by
  have h1 : sizeJ j ≤ (printVal 0 j).length := (sizeJ_le_print_len (sizeJ j)).1 j le_rfl 0
  have h2 := (parse_print_rt (sizeJ j)).1 j le_rfl 0 ((printVal 0 j).length + 1) []
    (by omega) trivial
  rw [List.append_nil] at h2
  unfold Json.parse stringify2
  simp [h2, skipWs]

theorem mem_toggleSource (l : List String) (a b : String) :
    b ∈ toggleSource l a ↔ (b ∈ l ∧ b ≠ a) ∨ (b = a ∧ a ∉ l) := by
  unfold toggleSource
  by_cases h : a ∈ l
  · rw [if_pos (by simpa [List.elem_iff] using h)]
    simp only [List.mem_filter, bne_iff_ne, ne_eq]
    constructor
    · intro hb
      exact Or.inl ⟨hb.1, hb.2⟩
    · rintro (⟨h1, h2⟩ | ⟨rfl, h2⟩)
      · exact ⟨h1, h2⟩
      · exact absurd h h2
  · rw [if_neg (by simpa [List.elem_iff] using h)]
    simp only [List.mem_append, List.mem_singleton]
    constructor
    · rintro (hb | rfl)
      · refine Or.inl ⟨hb, ?_⟩
        rintro rfl
        exact h hb
      · exact Or.inr ⟨rfl, h⟩
    · rintro (⟨h1, _⟩ | ⟨rfl, _⟩)
      · exact Or.inl h1
      · exact Or.inr rfl

/-- Claim C1: before any network call, `handleSearch` validates the query
and the selection: a blank (empty or whitespace-only) query or an empty
selected-source set produces a local error toast, leaves the state
unchanged and issues no `POST /search` request; a non-blank query with a
nonempty selection issues exactly the search request carrying the trimmed
query, the current content type and the selected source ids. -/
theorem handleSearch_preconditions (s : HomeState) :
    ((jsTrim s.query = "" ∨ s.selectedSources = []) →
      (∀ b, Effect.postSearch b ∉ (handleSearch s).1) ∧
      (∃ m, Effect.toastError m ∈ (handleSearch s).1) ∧
      (handleSearch s).2 = s) ∧
    ((jsTrim s.query ≠ "" ∧ s.selectedSources ≠ []) →
      (handleSearch s).1 =
        [Effect.postSearch ⟨jsTrim s.query, s.contentType, s.selectedSources⟩]) := by
  constructor
  · intro h
    by_cases hq : jsTrim s.query = ""
    · refine ⟨?_, ⟨"Digite algo para buscar", ?_⟩, ?_⟩ <;> simp [handleSearch, hq]
    · have hsel : s.selectedSources = [] := h.resolve_left hq
      refine ⟨?_, ⟨"Selecione ao menos uma fonte", ?_⟩, ?_⟩ <;>
        simp [handleSearch, hq, hsel]
  · rintro ⟨hq, hsel⟩
    have hlen : ¬ s.selectedSources.length = 0 := by
      simpa [List.length_eq_zero] using hsel
    simp [handleSearch, hq, hlen]

/-- Witness for claim C1 at two concrete states: a whitespace-only query
never reaches the network, a padded query is sent trimmed. -/
theorem handleSearch_preconditions_witness :
    (jsTrim homeBlank.query = "" ∨ homeBlank.selectedSources = []) ∧
    (∀ b, Effect.postSearch b ∉ (handleSearch homeBlank).1) ∧
    (handleSearch homeReady).1 =
      [Effect.postSearch ⟨jsTrim homeReady.query, homeReady.contentType,
        homeReady.selectedSources⟩] := by
  refine ⟨Or.inl (by decide), ?_, ?_⟩
  · exact ((handleSearch_preconditions homeBlank).1 (Or.inl (by decide))).1
  · exact (handleSearch_preconditions homeReady).2 ⟨by decide, by decide⟩

/-- Claim C2: `handleSubmit` validates the `config` text as JSON before
any write: if it does not parse, the only effect is the validation toast
and the whole dialog/form state is unchanged (no `POST /sources` and no
`PUT /sources/id` is sent); if it parses to `j`, the first effect is the
create or update request whose body carries `j` in place of the raw
string. -/
theorem handleSubmit_config_validation (s : AdminState) (ok : Bool) :
    (Json.parse s.formData.config = none →
      (handleSubmit s ok).1 = [Effect.toastError "Configuração JSON inválida"] ∧
      (handleSubmit s ok).2 = s) ∧
    (∀ j, Json.parse s.formData.config = some j →
      (handleSubmit s ok).1.head? =
        some (match s.editingSource with
          | some src => Effect.putSource src.id (fullPatch s.formData j)
          | none => Effect.postSources (submitDraft s.formData j)) ∧
      (fullPatch s.formData j).config = some j ∧
      (submitDraft s.formData j).config = j) := by
  constructor
  · intro h
    constructor <;> simp [handleSubmit, h]
  · intro j h
    refine ⟨?_, rfl, rfl⟩
    cases hs : s.editingSource <;> cases ok <;> simp [handleSubmit, h, hs]

/-- Witness for claim C2: the literal text `nope` is rejected with the
validation toast and no request; the default config text parses and the
create request is the first effect. -/
theorem handleSubmit_config_validation_witness :
    Json.parse adminBadConfig.formData.config = none ∧
    (handleSubmit adminBadConfig true).1 = [Effect.toastError "Configuração JSON inválida"] ∧
    (handleSubmit adminBadConfig true).2 = adminBadConfig ∧
    Json.parse initialAdmin.formData.config = some (Json.obj []) ∧
    (handleSubmit initialAdmin true).1.head? =
      some (Effect.postSources (submitDraft initialAdmin.formData (Json.obj []))) := by
  have h1 : Json.parse adminBadConfig.formData.config = none := rfl
  have h2 : Json.parse initialAdmin.formData.config = some (Json.obj []) := rfl
  refine ⟨h1, ?_, ?_, h2, ?_⟩
  · exact ((handleSubmit_config_validation adminBadConfig true).1 h1).1
  · exact ((handleSubmit_config_validation adminBadConfig true).1 h1).2
  · exact ((handleSubmit_config_validation initialAdmin true).2 (Json.obj []) h2).1

/-- Claim C3 counterexample: the in-flight flag only disables the search
button, not the Enter-key handler. From the initial Home state one can
load a source, type a query and press Enter to start a search; in the
resulting reachable state the flag is set, yet a second Enter keypress
issues another `POST /search` before the first resolves. -/
theorem inflight_duplicate_submission :
    ¬ (∀ s : HomeState, ReachableHome s → s.searching = true →
        ∀ e : HomeEvent, (e = HomeEvent.clickSearch ∨ e = HomeEvent.keyPress "Enter") →
        ∀ b : SearchBody, Effect.postSearch b ∉ (homeStep s e).1) := by
  intro h
  have hr1 : ReachableHome (homeStep initialHome (HomeEvent.sourcesLoaded [srcSteam])).2 :=
    ReachableHome.step _ _ ReachableHome.init
  have hr2 := ReachableHome.step _ (HomeEvent.inputChange "zelda") hr1
  have hr3 := ReachableHome.step _ (HomeEvent.keyPress "Enter") hr2
  have hreach : ReachableHome homeInFlight := hr3
  have heff : (homeStep homeInFlight (HomeEvent.keyPress "Enter")).1 =
      [Effect.postSearch ⟨"zelda", "game", ["s1"]⟩] := rfl
  have hmem : Effect.postSearch ⟨"zelda", "game", ["s1"]⟩ ∈
      (homeStep homeInFlight (HomeEvent.keyPress "Enter")).1 := by
    rw [heff]
    exact List.mem_singleton.mpr rfl
  exact h homeInFlight hreach rfl (HomeEvent.keyPress "Enter") (Or.inr rfl) _ hmem

/-- Claim C3 (amended): while a search request is outstanding the search
button is disabled, so the button path cannot start a second
`POST /search` (a click changes nothing and issues no effect); the
Enter-key path is not guarded by the in-flight flag. -/
theorem searching_disables_button (s : HomeState) (h : s.searching = true) :
    (homeStep s HomeEvent.clickSearch).1 = [] ∧
    (homeStep s HomeEvent.clickSearch).2 = s := by
  simp [homeStep, h]

/-- Witness for the amended claim C3 at the concrete in-flight state. -/
theorem searching_disables_button_witness :
    homeInFlight.searching = true ∧
    (homeStep homeInFlight HomeEvent.clickSearch).1 = [] ∧
    (homeStep homeInFlight HomeEvent.clickSearch).2 = homeInFlight :=
  ⟨rfl, (searching_disables_button homeInFlight rfl).1,
    (searching_disables_button homeInFlight rfl).2⟩

/-- Claim C4: loading a source for edit fills the config textarea with
the two-space pretty-printed serialization of the stored JSON object;
that displayed text parses back to the very same object, so submitting it
unchanged sends an update whose body carries the original object — a
lossless round trip. The last conjunct shows the concrete shape of the
spec example. -/
theorem config_edit_roundtrip (s : AdminState) (src : Source) (ok : Bool) :
    (handleEdit s src).formData.config = stringify2 src.config ∧
    Json.parse (stringify2 src.config) = some src.config ∧
    (handleSubmit (handleEdit s src) ok).1.head? =
      some (Effect.putSource src.id (fullPatch (handleEdit s src).formData src.config)) ∧
    stringify2 (Json.obj [(['a'], Json.num 1)]) = "\x7b\n  \"a\": 1\n\x7d" := by
  have h : Json.parse (stringify2 src.config) = some src.config :=
    parse_stringify2 src.config
  refine ⟨rfl, h, ?_, ?_⟩
  · cases ok <;> simp [handleSubmit, h, handleEdit]
  · simp [stringify2, printVal, printFields, printStr, printInt, toDigits, escapeStr,
      escapeChar, spaces, digitChar]

/-- Claim C5: toggling the enabled flag sends an update whose body holds
only the negated `enabled` field and none of the other SourceConfig
fields, followed on success by a reload of the full source list; the
reload response replaces the displayed list. -/
theorem toggleEnabled_only_enabled (s s2 : AdminState) (src : Source) (l : List Source) :
    (handleToggleEnabled s src true).1 =
      [Effect.putSource src.id (togglePatch src), Effect.getSources] ∧
    (togglePatch src).name = none ∧ (togglePatch src).type = none ∧
    (togglePatch src).url_base = none ∧ (togglePatch src).search_method = none ∧
    (togglePatch src).config = none ∧ (togglePatch src).enabled = some (!src.enabled) ∧
    (adminLoadSources s2 (some l)).2.sources = l :=
  ⟨rfl, rfl, rfl, rfl, rfl, rfl, rfl, rfl⟩

/-- Claim C6: selecting a content type issues exactly the scoped
`GET /sources/by-type/type` request, records the new type, and when the
response arrives the source list is replaced and the default selection is
exactly the ids of all returned sources. -/
theorem contentType_change_reload (s : HomeState) (ty : String) (l : List Source) :
    (homeStep s (HomeEvent.selectContentType ty)).1 = [Effect.getSourcesByType ty] ∧
    (homeStep s (HomeEvent.selectContentType ty)).2.contentType = ty ∧
    (homeStep (homeStep s (HomeEvent.selectContentType ty)).2
      (HomeEvent.sourcesLoaded l)).2.sources = l ∧
    (homeStep (homeStep s (HomeEvent.selectContentType ty)).2
      (HomeEvent.sourcesLoaded l)).2.selectedSources = l.map (fun x => x.id) :=
  ⟨rfl, rfl, rfl, rfl⟩

/-- Claim C7: when `GET /sources` fails in the admin view the previous
source list is left untouched, a user-visible toast is raised, and the
loading flag is cleared on both the failure and the success path. -/
theorem adminLoadSources_failure_spec (s : AdminState) (l : List Source) :
    (adminLoadSources s none).2.sources = s.sources ∧
    Effect.toastError "Erro ao carregar fontes" ∈ (adminLoadSources s none).1 ∧
    (adminLoadSources s none).2.loading = false ∧
    (adminLoadSources s (some l)).2.loading = false := by
  refine ⟨rfl, ?_, rfl, rfl⟩
  simp [adminLoadSources]

/-- Claim C8: dismissing the confirmation dialog aborts the delete with
no effects and no state change, and a `DELETE /sources/id` effect can only
ever be issued when the dialog was confirmed. -/
theorem handleDelete_confirmation_gate (s : AdminState) (id : String) (ok : Bool) :
    (handleDelete s id false ok).1 = [] ∧ (handleDelete s id false ok).2 = s ∧
    (∀ confirmed i, Effect.deleteSource i ∈ (handleDelete s id confirmed ok).1 →
      confirmed = true) := by
  refine ⟨rfl, rfl, ?_⟩
  intro confirmed i hmem
  cases confirmed with
  | true => rfl
  | false => simp [handleDelete] at hmem

/-- Witness for claim C8 at a concrete dismissed delete. -/
theorem handleDelete_confirmation_gate_witness :
    (handleDelete initialAdmin "x1" false true).1 = [] ∧
    (handleDelete initialAdmin "x1" false true).2 = initialAdmin :=
  ⟨(handleDelete_confirmation_gate initialAdmin "x1" true).1,
    (handleDelete_confirmation_gate initialAdmin "x1" true).2.1⟩

/-- Claim C9: the admin mount issues the seed request exactly once
alongside the source-list load, and a failed seed is only logged: the
state is unchanged and no toast of any kind is raised. -/
theorem seed_once_and_nonfatal (s : AdminState) :
    adminMountEffects.countP isSeedEffect = 1 ∧
    Effect.getSources ∈ adminMountEffects ∧
    (seedDatabase s false).2 = s ∧
    Effect.logError "Error seeding:" ∈ (seedDatabase s false).1 ∧
    (∀ m, Effect.toastError m ∉ (seedDatabase s false).1) ∧
    (∀ m, Effect.toastSuccess m ∉ (seedDatabase s false).1) ∧
    (∀ m, Effect.toastInfo m ∉ (seedDatabase s false).1) := by
  refine ⟨rfl, ?_, rfl, ?_, ?_, ?_, ?_⟩ <;> simp [adminMountEffects, seedDatabase]

/-- Witness for claim C9 at the initial admin state. -/
theorem seed_once_and_nonfatal_witness :
    (seedDatabase initialAdmin false).2 = initialAdmin ∧
    Effect.logError "Error seeding:" ∈ (seedDatabase initialAdmin false).1 :=
  ⟨(seed_once_and_nonfatal initialAdmin).2.2.1,
    (seed_once_and_nonfatal initialAdmin).2.2.2.1⟩

/-- Claim C10: on a duplicate-free selection, one toggle inverts the
membership of the toggled id, leaves every other id unchanged, preserves
duplicate-freeness, and toggling twice restores the original membership
of every id. -/
theorem toggleSource_spec (l : List String) (a : String) (hnd : l.Nodup) :
    (a ∈ toggleSource l a ↔ a ∉ l) ∧
    (∀ b, b ≠ a → (b ∈ toggleSource l a ↔ b ∈ l)) ∧
    (toggleSource l a).Nodup ∧
    (∀ b, b ∈ toggleSource (toggleSource l a) a ↔ b ∈ l) := by
  refine ⟨?_, ?_, ?_, ?_⟩
  · rw [mem_toggleSource]
    by_cases h : a ∈ l <;> simp [h]
  · intro b hb
    rw [mem_toggleSource]
    by_cases h : a ∈ l <;> simp [hb, h]
  · unfold toggleSource
    by_cases h : a ∈ l
    · rw [if_pos (by simpa [List.elem_iff] using h)]
      exact hnd.filter _
    · rw [if_neg (by simpa [List.elem_iff] using h)]
      refine List.Nodup.append hnd (List.nodup_singleton a) ?_
      intro x hx hxa
      rw [List.mem_singleton] at hxa
      subst hxa
      exact h hx
  · intro b
    rw [mem_toggleSource, mem_toggleSource]
    by_cases hb : b = a
    · subst hb
      by_cases h : b ∈ l <;> simp [h, mem_toggleSource]
    · by_cases h : a ∈ l <;> simp [hb, h, mem_toggleSource]

/-- Witness for claim C10 on a concrete duplicate-free selection. -/
theorem toggleSource_spec_witness :
    (["x", "y"] : List String).Nodup ∧ (toggleSource ["x", "y"] "x").Nodup :=
  ⟨by decide, (toggleSource_spec ["x", "y"] "x" (by decide)).2.2.1⟩

end MetaSearch
